import Mathlib

/-!
Verification of the gym-mtsim trading environment (`gym_mtsim/envs/mt_env.py`)
against its natural-language specification.

The environment code is shallowly embedded below.  Machine floats are
modelled by rationals; the external position/margin simulator (the spec
treats it as an external collaborator; its sources are not part of the
verified slice) is modelled from the spec through its narrow interface,
with every such definition marked `Modelled from the spec`.
-/

/-! ## Random number generator

Modelled from the spec: the episode RNG (`np.random.default_rng`) is an
external numpy generator.  It is modelled as an infinite stream of natural
draws plus a position; every sampling primitive consumes exactly one draw,
mirroring the one-value-per-call use in the source.  `default_rng seed`
restarts the stream deterministically from the seed. -/

structure Rng where
  stream : ℕ → ℕ
  pos : ℕ

def Rng.val (r : Rng) : ℕ := r.stream r.pos

def Rng.advance (r : Rng) : Rng := { r with pos := r.pos + 1 }

/-- Modelled from the spec: `np.random.default_rng(seed)` builds a fresh
generator fully determined by the seed. -/
def default_rng (seed : ℕ) : Rng := { stream := fun n => seed + n, pos := 0 }

/-- Models `np_rng.integers(low, high)` (source lines 141-145): uniform over
the half-open range `[low, high)` (numpy default `endpoint=False`); raises —
modelled as `none` — when `low >= high`.  The returned value is
`low + draw % (high - low)`, so exactly the values of `[low, high)` are
attainable. -/
def np_integers (lo hi : ℕ) (r : Rng) : Option (ℕ × Rng) :=
  if lo < hi then some (lo + r.val % (hi - lo), r.advance) else none

/-- Modelled from the spec: `np_rng.choice([False, True], p=[1-p, p])`
(source lines 205, 212) — a Bernoulli draw that is `true` with probability
`p`, modelled by comparing a uniform value from the stream against `p`. -/
def bernoulli_draw (p : ℚ) (r : Rng) : Bool × Rng :=
  (decide (((r.val % 1000 : ℕ) : ℚ) / 1000 < p), r.advance)

/-- Modelled from the spec: `np_rng.lognormal(mu, sigma)` (source line 136)
is an external numpy sampler; modelled as a deterministic draw from the
stream (its exact distribution is irrelevant to the claims below). -/
def lognormal_draw (mu sigma : ℚ) (r : Rng) : ℚ × Rng :=
  ((((r.val % 1000 : ℕ) : ℚ) / 1000 + 1) * (mu + sigma + 1), r.advance)

/-! ## Numeric helpers -/

/-- Models `np.clip(v, lo, hi)` = `minimum(hi, maximum(lo, v))`. -/
def clipQ (v lo hi : ℚ) : ℚ := min hi (max lo v)

/-- Models Python `round` on a float value: round half to even
(banker's rounding), as used at source line 327. -/
def pythonRound (q : ℚ) : ℤ :=
  if q - ⌊q⌋ < 1/2 then ⌊q⌋
  else if 1/2 < q - ⌊q⌋ then ⌊q⌋ + 1
  else if 2 ∣ ⌊q⌋ then ⌊q⌋ else ⌊q⌋ + 1

/-- Models `expit(np.arctanh(x.clip(-1+1e-3, 1-1e-3)))` (source lines
199-203).  The clipping is exact; the transcendental `expit ∘ arctanh`
composite is external (scipy/numpy).  Modelled from the spec ("converts
bounded logits back into probabilities") as the strictly monotone map
`x ↦ (1+x)/2` onto `(0,1)`, which agrees with the real composite at the
fixed point `0 ↦ 1/2`. -/
def probOfLogit (y : ℚ) : ℚ := (1 + clipQ y (-1 + 1/1000) (1 - 1/1000)) / 2

/-! ## External simulator data (narrow interface) -/

/-- Per-instrument metadata (`symbols_info[symbol]`), spec section 6. -/
structure SymbolInfo where
  volume_min : ℚ
  volume_max : ℚ
  volume_step : ℚ
deriving DecidableEq

/-- Order direction, from the external simulator interface. -/
inductive OrderType where
  | Buy
  | Sell
deriving DecidableEq

/-- An open order as read through the external simulator interface. -/
structure Order where
  id : ℕ
  symbol : String
  type : OrderType
  volume : ℚ
  fee : ℚ
  margin : ℚ
  profit : ℚ
  entry_price : ℚ
deriving DecidableEq

/-! ## `MtEnv._get_modified_volume` (source lines 323-328) -/

/-- Source lines 323-328: take the absolute volume, clip it into
`[volume_min, volume_max]`, then round to the nearest multiple of
`volume_step` (Python half-to-even rounding). -/
def get_modified_volume (si : SymbolInfo) (volume : ℚ) : ℚ :=
  let v := |volume|
  let v2 := clipQ v si.volume_min si.volume_max
  (pythonRound (v2 / si.volume_step) : ℚ) * si.volume_step

lemma le_pythonRound (a : ℤ) (q : ℚ) (h : (a : ℚ) ≤ q) : a ≤ pythonRound q := by
  have hf : a ≤ ⌊q⌋ := Int.le_floor.mpr h
  unfold pythonRound
  split_ifs <;> omega

lemma pythonRound_le (b : ℤ) (q : ℚ) (h : q ≤ (b : ℚ)) : pythonRound q ≤ b := by
  have hfb : ⌊q⌋ ≤ b := by
    have := Int.floor_le_floor h
    rwa [Int.floor_intCast] at this
  have hstrict : (1:ℚ)/2 ≤ q - ⌊q⌋ → ⌊q⌋ + 1 ≤ b := by
    intro hhalf
    have h1 : (⌊q⌋ : ℚ) < (b : ℚ) := by linarith
    have h2 : ⌊q⌋ < b := by exact_mod_cast h1
    omega
  unfold pythonRound
  split_ifs with h1 h2 h3
  · exact hfb
  · exact hstrict (le_of_lt h2)
  · exact hfb
  · exact hstrict (by linarith)

/-- The modified volume is by construction an integer multiple of
`volume_step`. -/
lemma get_modified_volume_dvd (si : SymbolInfo) (volume : ℚ) :
    ∃ n : ℤ, get_modified_volume si volume = (n : ℚ) * si.volume_step :=
  ⟨pythonRound (clipQ |volume| si.volume_min si.volume_max / si.volume_step), rfl⟩

/-- Range containment for the modified volume, available when `volume_min`
and `volume_max` are themselves integer multiples of a positive
`volume_step`. -/
lemma get_modified_volume_bounds (si : SymbolInfo) (volume : ℚ)
    (hstep : 0 < si.volume_step) (hmm : si.volume_min ≤ si.volume_max)
    (a b : ℤ) (ha : si.volume_min = (a : ℚ) * si.volume_step)
    (hb : si.volume_max = (b : ℚ) * si.volume_step) :
    si.volume_min ≤ get_modified_volume si volume ∧
      get_modified_volume si volume ≤ si.volume_max := by
  set v2 := clipQ |volume| si.volume_min si.volume_max with hv2
  have hlo : si.volume_min ≤ v2 := le_min hmm (le_max_left _ _)
  have hhi : v2 ≤ si.volume_max := min_le_left _ _
  have hdiv_lo : (a : ℚ) ≤ v2 / si.volume_step := by
    rw [le_div_iff₀ hstep]
    calc (a : ℚ) * si.volume_step = si.volume_min := ha.symm
    _ ≤ v2 := hlo
  have hdiv_hi : v2 / si.volume_step ≤ (b : ℚ) := by
    rw [div_le_iff₀ hstep]
    calc v2 ≤ si.volume_max := hhi
    _ = (b : ℚ) * si.volume_step := hb
  have hra : a ≤ pythonRound (v2 / si.volume_step) := le_pythonRound a _ hdiv_lo
  have hrb : pythonRound (v2 / si.volume_step) ≤ b := pythonRound_le b _ hdiv_hi
  constructor
  · rw [ha, get_modified_volume]
    exact mul_le_mul_of_nonneg_right (by exact_mod_cast hra) hstep.le
  · rw [hb, get_modified_volume]
    exact mul_le_mul_of_nonneg_right (by exact_mod_cast hrb) hstep.le

/-! ## External world oracle

Modelled from the spec: the external simulator arithmetic (margins, order
rejection decisions, account evolution under `tick`) and the price data are
excluded collaborators.  They are modelled as deterministic oracle
functions, so the whole pipeline stays a pure function of its inputs. -/

/-- The account fields readable from the external simulator. -/
structure AccountSnapshot where
  balance : ℚ
  equity : ℚ
  margin : ℚ
  free_margin : ℚ
  margin_level : ℚ

/-- Modelled from the spec: deterministic oracle standing for the external
market data and simulator arithmetic.  `reject symbol next_id` decides
whether `create_order` raises an `OrderValidationError` (and with which
message) in the simulator state whose next order id is `next_id`. -/
structure World where
  timePoint : ℕ → ℚ
  signal : ℕ → List ℚ
  account : ℕ → AccountSnapshot
  reject : String → ℕ → Option String
  orderMargin : ℕ → ℚ
  entryPrice : ℕ → ℚ

/-- Modelled from the spec: the mutable state of the external simulator as
seen through its narrow interface (readable account fields, open-order
list, hedge flag, per-instrument metadata). -/
structure Sim where
  hedge : Bool
  balance : ℚ
  equity : ℚ
  margin : ℚ
  free_margin : ℚ
  margin_level : ℚ
  current_time : ℚ
  next_id : ℕ
  orders : List Order
  symbols_info : String → SymbolInfo

/-- `simulator.symbol_orders(symbol)`: the open orders of one instrument. -/
def symbol_orders (sim : Sim) (symbol : String) : List Order :=
  sim.orders.filter (fun o => o.symbol == symbol)

/-- Modelled from the spec: `simulator.create_order(order_type, symbol,
volume, fee)` either fails with an `OrderValidationError` (a `ValueError`
carrying a message, decided by the `reject` oracle) leaving the simulator
untouched, or opens a new order.  In hedge (multi-order) mode the order is
appended; in unhedged mode at most one concurrent order per instrument is
permitted (spec glossary), so the new order replaces any open order of the
same instrument. -/
def create_order (world : World) (otype : OrderType) (symbol : String)
    (volume fee : ℚ) (sim : Sim) : Except String (Order × Sim) :=
  match world.reject symbol sim.next_id with
  | some e => Except.error e
  | none =>
      let order : Order :=
        { id := sim.next_id
          symbol := symbol
          type := otype
          volume := volume
          fee := fee
          margin := world.orderMargin sim.next_id
          profit := 0
          entry_price := world.entryPrice sim.next_id }
      let orders :=
        if sim.hedge then sim.orders ++ [order]
        else (sim.orders.filter (fun o => !(o.symbol == symbol))) ++ [order]
      Except.ok (order, { sim with orders := orders, next_id := sim.next_id + 1 })

/-- Modelled from the spec: `simulator.close_order(order)` removes the open
order and realizes its profit into the balance. -/
def close_order (sim : Sim) (o : Order) : Sim :=
  { sim with orders := sim.orders.erase o, balance := sim.balance + o.profit }

/-- Modelled from the spec: `simulator.tick(dt)` advances the simulator
time and re-derives the account fields; the resulting account values are
supplied by the oracle, indexed by the tick the environment advanced to.
The open-order list is not touched by the environment during `tick`. -/
def tickSim (world : World) (t : ℕ) (sim : Sim) : Sim :=
  let a := world.account t
  { sim with
    current_time := world.timePoint t
    balance := a.balance
    equity := a.equity
    margin := a.margin
    free_margin := a.free_margin
    margin_level := a.margin_level }

/-! ## Environment records -/

/-- Reward values.  The linear policy produces a rational; the logarithmic
policy produces either `ln(cur/prev)` (kept symbolically so that the state
machine stays computable) or the sentinel floor `-10`.  `toReal` gives the
denotation. -/
inductive RewardVal where
  | lin : ℚ → RewardVal
  | logRatio : ℚ → ℚ → RewardVal
  | floor : RewardVal
deriving DecidableEq

noncomputable def RewardVal.toReal : RewardVal → ℝ
  | .lin q => (q : ℝ)
  | .logRatio cur prev => Real.log ((cur : ℝ) / (prev : ℝ))
  | .floor => -10

/-- The per-instrument order-intent record built in `_apply_action`
(source lines 229-234).  The `fee`/`margin` fields start as `float(nan)`,
modelled as `none`. -/
structure OrderIntent where
  order_id : Option ℕ
  symbol : String
  hold_probability : ℚ
  hold : Bool
  volume : ℚ
  capacity : ℤ
  order_type : Option OrderType
  modified_volume : ℚ
  fee : Option ℚ
  margin : Option ℚ
  error : String

/-- The closed-order record built in `_apply_action` (source lines
221-226). -/
structure ClosedOrderInfo where
  order_id : ℕ
  symbol : String
  order_type : OrderType
  volume : ℚ
  fee : ℚ
  margin : ℚ
  profit : ℚ
  close_probability : ℚ

/-- The per-step info record (`_create_info`, source lines 314-321). -/
structure Info where
  orders : Option (List (String × OrderIntent))
  closed_orders : Option (List (String × List ClosedOrderInfo))
  step_reward : Option RewardVal
  balance : ℚ
  equity : ℚ
  margin : ℚ
  free_margin : ℚ
  margin_level : ℚ

/-- `_create_info(**kwargs)`: copies the readable account fields and the
optional per-step records. -/
def create_info (sim : Sim) (orders : Option (List (String × OrderIntent)))
    (closed_orders : Option (List (String × List ClosedOrderInfo)))
    (step_reward : Option RewardVal) : Info :=
  { orders := orders
    closed_orders := closed_orders
    step_reward := step_reward
    balance := sim.balance
    equity := sim.equity
    margin := sim.margin
    free_margin := sim.free_margin
    margin_level := sim.margin_level }

def emptyInfo : Info :=
  { orders := none
    closed_orders := none
    step_reward := none
    balance := 0
    equity := 0
    margin := 0
    free_margin := 0
    margin_level := 0 }

/-- The fee configuration: a fixed rate or a per-instrument resolver
(source line 242 dispatches on the runtime type). -/
inductive FeeCfg where
  | fixed : ℚ → FeeCfg
  | per : (String → ℚ) → FeeCfg

def resolveFee (fee : FeeCfg) (symbol : String) : ℚ :=
  match fee with
  | .fixed q => q
  | .per f => f symbol

/-! ## Configuration and episode state -/

/-- Constructor-time configuration of `MtEnv` (the fields the verified
claims depend on).  `initial_start_tick = window_size - 1` and
`max_end_tick = len(time_points) - 1` are the values frozen in `__init__`
(source lines 100-104). -/
structure EnvConfig where
  trading_symbols : List String
  window_size : ℕ
  fee : FeeCfg
  symbol_max_orders : ℕ
  initial_start_tick : ℕ
  max_end_tick : ℕ
  preprocess : ℚ → ℚ
  randomize_initial_balance : Bool
  balance_mu : ℚ
  balance_sigma : ℚ
  time_split : Bool
  min_time_split_length : ℕ
  max_time_split_length : ℕ
  risk_free_rate : ℚ
  risk_premium : Bool
  done_if_equity_zero : Bool
  loss_cut : Option ℚ
  log_reward : Bool

/-- The persistent (cross-episode) part of the environment object:
configuration, oracle, the mutable RNG, the pristine original simulator and
the persisted `_start_tick`/`_end_tick` attributes. -/
structure BaseEnv where
  cfg : EnvConfig
  world : World
  rng : Rng
  original_sim : Sim
  start_tick : ℕ
  end_tick : ℕ

/-- The per-episode state established by `reset` and mutated by `step`. -/
structure EnvState where
  cfg : EnvConfig
  world : World
  rng : Rng
  sim : Sim
  start_tick : ℕ
  end_tick : ℕ
  current_tick : ℕ
  truncated : Bool
  initial_balance : ℚ
  history : List Info

/-! ## Observation (`_get_observation`, source lines 278-297) -/

structure Obs where
  balance : ℚ
  equity : ℚ
  margin : ℚ
  features : List (List ℚ)
  orders : List (List (List ℚ))

/-- Elementwise application of the preprocessing transform to every
observation component (source lines 294-296). -/
def mapObs (f : ℚ → ℚ) (o : Obs) : Obs :=
  { balance := f o.balance
    equity := f o.equity
    margin := f o.margin
    features := o.features.map (List.map f)
    orders := o.orders.map (List.map (List.map f)) }

/-- `_get_observation`: the trailing `window_size` feature rows ending at
the current tick, the account scalars, and the per-instrument order tensor
(zero-padded beyond the open orders), then the preprocessing transform.
The default transform (`np.arcsinh`) is an external elementwise numpy
ufunc; it is kept abstract as the `preprocess` field of the
configuration. -/
def get_observation (cfg : EnvConfig) (world : World) (sim : Sim)
    (current_tick : ℕ) : Obs :=
  let features := (List.range cfg.window_size).map
    (fun j => world.signal (current_tick + 1 - cfg.window_size + j))
  let orders := cfg.trading_symbols.map (fun symbol =>
    (List.range cfg.symbol_max_orders).map (fun j =>
      match (symbol_orders sim symbol).get? j with
      | some o => [o.entry_price, o.volume, o.profit]
      | none => [0, 0, 0]))
  mapObs cfg.preprocess
    { balance := sim.balance
      equity := sim.equity
      margin := sim.margin
      features := features
      orders := orders }

/-! ## `_apply_action` (source lines 187-255) -/

/-- One Bernoulli close decision per existing open order, drawn against the
corresponding close probability (source line 212). -/
def sampleCloses : List (Order × ℚ) → Rng → List (Order × ℚ × Bool) × Rng
  | [], r => ([], r)
  | (o, p) :: rest, r =>
      let d := bernoulli_draw p r
      let tail := sampleCloses rest d.2
      ((o, p, d.1) :: tail.1, tail.2)

/-- Sequentially close the selected orders, recording a closed-order record
for each (source lines 219-226). -/
def closeOrdersList : Sim → List (Order × ℚ) → Sim × List ClosedOrderInfo
  | sim, [] => (sim, [])
  | sim, (o, p) :: rest =>
      let sim1 := close_order sim o
      let tail := closeOrdersList sim1 rest
      (tail.1,
        { order_id := o.id
          symbol := o.symbol
          order_type := o.type
          volume := o.volume
          fee := o.fee
          margin := o.margin
          profit := o.profit
          close_probability := p } :: tail.2)

/-- The branch structure of the per-instrument body of `_apply_action`
(source lines 228-253), with the sampled decisions (`hold`, the selected
close pairs) and the decoded values passed in explicitly: closes the
selected orders, computes the remaining capacity, and either records a
capacity error, requests an order creation (recording a rejection as the
error string) or holds. -/
def processSymbolCore (cfg : EnvConfig) (world : World) (symbol : String)
    (hold : Bool) (hold_probability volume : ℚ) (nOrders : ℕ)
    (toClose : List (Order × ℚ)) (sim : Sim) (rng2 : Rng) :
    OrderIntent × List ClosedOrderInfo × Sim × Rng :=
  let modified_volume := get_modified_volume (sim.symbols_info symbol) volume
  let closedRes := closeOrdersList sim toClose
  let sim2 := closedRes.1
  let closedInfos := closedRes.2
  let capacity : ℤ := (cfg.symbol_max_orders : ℤ) -
    ((nOrders : ℤ) - (toClose.length : ℤ))
  let baseIntent : OrderIntent :=
    { order_id := none
      symbol := symbol
      hold_probability := hold_probability
      hold := hold
      volume := volume
      capacity := capacity
      order_type := none
      modified_volume := modified_volume
      fee := none
      margin := none
      error := "" }
  if sim.hedge ∧ capacity = 0 then
    ({ baseIntent with error := "cannot add more orders" }, closedInfos, sim2, rng2)
  else if hold = false then
    let otype : OrderType := if 0 < volume then .Buy else .Sell
    let feeVal := resolveFee cfg.fee symbol
    match create_order world otype symbol modified_volume feeVal sim2 with
    | .ok res =>
        ({ baseIntent with
            order_id := some res.1.id
            order_type := some otype
            fee := some feeVal
            margin := some res.1.margin },
         closedInfos, res.2, rng2)
    | .error e =>
        ({ baseIntent with error := e }, closedInfos, sim2, rng2)
  else
    (baseIntent, closedInfos, sim2, rng2)

/-- The per-instrument body of `_apply_action` (source lines 193-253):
decode the slot sub-vector, sample the hold decision, sample the close
decisions against the existing open orders, then run the branch logic of
`processSymbolCore`. -/
def processSymbol (cfg : EnvConfig) (world : World) (symbolAction : List ℚ)
    (symbol : String) (sim : Sim) (rng : Rng) :
    OrderIntent × List ClosedOrderInfo × Sim × Rng :=
  let k := cfg.symbol_max_orders + 2
  let close_logits := symbolAction.take (k - 2)
  let hold_logit := symbolAction.getD (k - 2) 0
  let volume := symbolAction.getD (k - 1) 0 * 100
  let close_probs := close_logits.map probOfLogit
  let hold_probability := probOfLogit hold_logit
  let hd := bernoulli_draw hold_probability rng
  let symbolOrders := symbol_orders sim symbol
  let sampled := sampleCloses (symbolOrders.zip (close_probs.take symbolOrders.length)) hd.2
  let toClose := (sampled.1.filter (fun x => x.2.2)).map (fun x => (x.1, x.2.1))
  processSymbolCore cfg world symbol hd.1 hold_probability volume
    symbolOrders.length toClose sim sampled.2

/-- Iterate `processSymbol` over the instruments, slicing the flat action
vector into per-instrument sub-vectors of width `symbol_max_orders + 2`
(source lines 191-194). -/
def applyActionGo (cfg : EnvConfig) (world : World) (action : List ℚ) :
    List String → ℕ → Sim → Rng →
    List (String × OrderIntent) × List (String × List ClosedOrderInfo) × Sim × Rng
  | [], _, sim, rng => ([], [], sim, rng)
  | symbol :: rest, i, sim, rng =>
      let k := cfg.symbol_max_orders + 2
      let slice := (action.drop (k * i)).take k
      let res := processSymbol cfg world slice symbol sim rng
      let tail := applyActionGo cfg world action rest (i + 1) res.2.2.1 res.2.2.2
      ((symbol, res.1) :: tail.1, (symbol, res.2.1) :: tail.2.1, tail.2.2)

/-- `_apply_action(action)`. -/
def apply_action (cfg : EnvConfig) (world : World) (action : List ℚ)
    (sim : Sim) (rng : Rng) :
    List (String × OrderIntent) × List (String × List ClosedOrderInfo) × Sim × Rng :=
  applyActionGo cfg world action cfg.trading_symbols 0 sim rng

/-! ## Rewards and termination (source lines 164-174, 299-312) -/

/-- `_calculate_reward` (source lines 299-303). -/
def calculate_reward (prev_equity current_equity initial_balance : ℚ) : ℚ :=
  (current_equity - prev_equity) / initial_balance * 100

/-- `_calculate_log_reward` (source lines 305-312): `ln(cur/prev)` when
both equities are strictly positive, else the sentinel floor `-10`. -/
def calculate_log_reward (prev_equity current_equity : ℚ) : RewardVal :=
  if 0 < prev_equity ∧ 0 < current_equity then .logRatio current_equity prev_equity
  else .floor

/-- The termination flag computed in `step` (source lines 168-174): the
zero-equity test when enabled, then — when a loss-cut ratio is configured —
overwritten by the loss-cut test. -/
def terminalFlag (done_if_equity_zero : Bool) (loss_cut : Option ℚ)
    (equity initial_balance : ℚ) : Bool :=
  let t := if done_if_equity_zero then decide (equity = 0) else false
  match loss_cut with
  | none => t
  | some lc => decide (equity / initial_balance < lc)

/-! ## `reset` (source lines 126-153) -/

/-- The time-window sampling of `reset` (source lines 139-146): a start
tick from `integers(initial_start_tick, max_end_tick - min_length)` and an
end tick from `integers(start + min_length, min(max_end_tick, start +
max_length))`; `none` when numpy raises on an empty range. -/
def sampleWindow (initial_start max_end minLen maxLen : ℕ) (r : Rng) :
    Option ((ℕ × ℕ) × Rng) :=
  match np_integers initial_start (max_end - minLen) r with
  | none => none
  | some (s, r1) =>
      match np_integers (s + minLen) (min max_end (s + maxLen)) r1 with
      | none => none
      | some (e, r2) => some ((s, e), r2)

/-- The time-split arm of `reset` (source lines 139-146): episode ticks
from `sampleWindow`, or the numpy exception (`none`) on an empty range. -/
def resetWithWindow (b : BaseEnv) (sim1 : Sim) (ib : ℚ) (rng1 : Rng) :
    Option EnvState :=
  match sampleWindow b.cfg.initial_start_tick b.cfg.max_end_tick
      b.cfg.min_time_split_length b.cfg.max_time_split_length rng1 with
  | none => none
  | some ((s, e), rng2) =>
      let sim2 := { sim1 with current_time := b.world.timePoint s }
      some { cfg := b.cfg
             world := b.world
             rng := rng2
             sim := sim2
             start_tick := s
             end_tick := e
             current_tick := s
             truncated := false
             initial_balance := ib
             history := [create_info sim2 none none none] }

/-- `reset(seed)`: replace the RNG only when a seed is supplied, deep-copy
the original simulator, optionally randomize the starting balance,
optionally sample a time sub-window, and seed the history with a single
info record.  `none` models the numpy exception on an empty sampling
range. -/
def resetEnv (b : BaseEnv) (seed : Option ℕ) : Option EnvState :=
  let rng0 := match seed with
    | some s => default_rng s
    | none => b.rng
  let sim0 := b.original_sim
  let draw :=
    if b.cfg.randomize_initial_balance then
      let d := lognormal_draw b.cfg.balance_mu b.cfg.balance_sigma rng0
      ({ sim0 with equity := d.1, balance := d.1 }, d.1, d.2)
    else (sim0, sim0.balance, rng0)
  let sim1 := draw.1
  let ib := draw.2.1
  let rng1 := draw.2.2
  if b.cfg.time_split then
    resetWithWindow b sim1 ib rng1
  else
    let sim2 := { sim1 with current_time := b.world.timePoint b.start_tick }
    some { cfg := b.cfg
           world := b.world
           rng := rng1
           sim := sim2
           start_tick := b.start_tick
           end_tick := b.end_tick
           current_tick := b.start_tick
           truncated := false
           initial_balance := ib
           history := [create_info sim2 none none none] }

/-! ## `step` (source lines 155-185) -/

/-- What one `step` call returns.  The risk-premium adjustment (source
lines 182-183) is applied to the returned reward only, after the info
record is built; it is recorded here as the separate `premium` summand, so
the returned reward denotes `reward.toReal - premium`. -/
structure StepOut where
  obs : Obs
  reward : RewardVal
  premium : ℚ
  terminated : Bool
  truncated : Bool
  info : Info

/-- `step(action)`: apply the action, advance the tick and the simulator,
compute reward and termination, append the info record. -/
def stepEnv (e : EnvState) (action : List ℚ) : EnvState × StepOut :=
  let applied := apply_action e.cfg e.world action e.sim e.rng
  let oi := applied.1
  let coi := applied.2.1
  let sim1 := applied.2.2.1
  let rng1 := applied.2.2.2
  let ct := e.current_tick + 1
  let trunc := if ct = e.end_tick then true else e.truncated
  let sim2 := tickSim e.world ct sim1
  let prevEq := (e.history.getLastD emptyInfo).equity
  let reward :=
    if e.cfg.log_reward then calculate_log_reward prevEq sim2.equity
    else RewardVal.lin (calculate_reward prevEq sim2.equity e.initial_balance)
  let terminated := terminalFlag e.cfg.done_if_equity_zero e.cfg.loss_cut
    sim2.equity e.initial_balance
  let info := create_info sim2 (some oi) (some coi) (some reward)
  let obs := get_observation e.cfg e.world sim2 ct
  let premium := if e.cfg.risk_premium
    then sim2.balance * e.cfg.risk_free_rate / (365.25 : ℚ) else 0
  ({ e with
      sim := sim2
      rng := rng1
      current_tick := ct
      truncated := trunc
      history := e.history ++ [info] },
   { obs := obs
     reward := reward
     premium := premium
     terminated := terminated
     truncated := trunc
     info := info })

/-- Fold `step` over an action sequence, collecting the outputs. -/
def runSteps : EnvState → List (List ℚ) → List StepOut × EnvState
  | st, [] => ([], st)
  | st, a :: rest =>
      let s := stepEnv st a
      let tail := runSteps s.1 rest
      (s.2 :: tail.1, tail.2)

/-- A full trajectory: `reset` (observation and info) followed by the step
outputs of an action sequence. -/
def runEpisode (b : BaseEnv) (seed : Option ℕ) (actions : List (List ℚ)) :
    Option ((Obs × Info) × List StepOut × EnvState) :=
  match resetEnv b seed with
  | none => none
  | some st =>
      some ((get_observation st.cfg st.world st.sim st.current_tick,
             create_info st.sim none none none),
            runSteps st actions)

/-- The episode states reachable from a base environment: a successful
`reset`, followed by any number of `step` calls. -/
inductive Reachable (b : BaseEnv) : EnvState → Prop where
  | reset : ∀ seed st, resetEnv b seed = some st → Reachable b st
  | step : ∀ st a, Reachable b st → Reachable b (stepEnv st a).1

/-! ## Demo configuration used by witnesses and counterexamples -/

def demoSI : SymbolInfo :=
  { volume_min := 1/100
    volume_max := 1
    volume_step := 1/100 }

def demoWorld : World :=
  { timePoint := fun n => (n : ℚ)
    signal := fun _ => [1, 1]
    account := fun n => if n = 0 then ⟨100, 100, 0, 100, 0⟩ else ⟨100, 0, 0, 0, 0⟩
    reject := fun _ _ => none
    orderMargin := fun _ => 1
    entryPrice := fun _ => 1 }

def demoSim : Sim :=
  { hedge := true
    balance := 100
    equity := 100
    margin := 0
    free_margin := 100
    margin_level := 0
    current_time := 0
    next_id := 0
    orders := []
    symbols_info := fun _ => demoSI }

def demoCfg : EnvConfig :=
  { trading_symbols := ["EURUSD"]
    window_size := 1
    fee := .fixed (5/10000)
    symbol_max_orders := 1
    initial_start_tick := 0
    max_end_tick := 5
    preprocess := id
    randomize_initial_balance := false
    balance_mu := 0
    balance_sigma := 0
    time_split := false
    min_time_split_length := 10
    max_time_split_length := 200
    risk_free_rate := 1/50
    risk_premium := false
    done_if_equity_zero := true
    loss_cut := some 0
    log_reward := false }

def c1Base : BaseEnv :=
  { cfg := demoCfg
    world := demoWorld
    rng := default_rng 42
    original_sim := demoSim
    start_tick := 0
    end_tick := 5 }

def junkState : EnvState :=
  { cfg := demoCfg
    world := demoWorld
    rng := default_rng 0
    sim := demoSim
    start_tick := 0
    end_tick := 0
    current_tick := 0
    truncated := false
    initial_balance := 0
    history := [] }

def c1State : EnvState := (resetEnv c1Base none).getD junkState

/-! ## Claim C1: termination flag -/

/-- C1 (amended): the terminated flag returned by `step` is computed as
follows: when a loss-cut ratio is configured, `terminated` equals exactly
`equity / initial_balance < loss_cut`, regardless of the zero-equity
toggle (the loss-cut test overwrites, it does not disjoin); when no
loss-cut ratio is configured, `terminated` is true iff the zero-equity
toggle is enabled and equity is exactly zero. -/
theorem claim1_theorem (e : EnvState) (a : List ℚ) :
    (e.cfg.loss_cut = none →
      (stepEnv e a).2.terminated =
        (e.cfg.done_if_equity_zero && decide ((stepEnv e a).1.sim.equity = 0)))
    ∧ (∀ lc : ℚ, e.cfg.loss_cut = some lc →
      (stepEnv e a).2.terminated =
        decide ((stepEnv e a).1.sim.equity / e.initial_balance < lc)) := by
  constructor
  · intro h
    cases hd : e.cfg.done_if_equity_zero <;>
      simp [stepEnv, terminalFlag, h, hd]
  · intro lc h
    simp [stepEnv, terminalFlag, h]

/-- C1 witness: a concrete step where the loss-cut branch decides the
flag. -/
theorem claim1_witness :
    (stepEnv c1State [0, 0, 0]).2.terminated =
      decide ((stepEnv c1State [0, 0, 0]).1.sim.equity / c1State.initial_balance < 0) :=
  (claim1_theorem c1State [0, 0, 0]).2 0 rfl

/-- C1 counterexample to the claim as stated: with both toggles enabled
(zero-equity termination on, loss-cut ratio `0` configured) and the
post-step equity exactly `0`, the claim demands `terminated = true`
(either condition suffices), but the code yields `false` because the
loss-cut comparison `0 / 100 < 0` overwrites the zero-equity test. -/
theorem claim1_counterexample :
    c1Base.cfg.done_if_equity_zero = true ∧
    c1Base.cfg.loss_cut = some 0 ∧
    (resetEnv c1Base none).map (fun st => (stepEnv st [0, 0, 0]).1.sim.equity) = some 0 ∧
    (resetEnv c1Base none).map (fun st => (stepEnv st [0, 0, 0]).2.terminated) = some false := by
  refine ⟨rfl, rfl, rfl, ?_⟩
  have h : (resetEnv c1Base none).map (fun st => (stepEnv st [0, 0, 0]).2.terminated)
      = some (decide ((0 : ℚ) / 100 < 0)) := rfl
  rw [h, decide_eq_false (by norm_num)]

/-! ## Claim C2: modified volume -/

/-- C2 (amended): the volume-adjusted quantity is always an integer
multiple of `volume_step`; it lies within `[volume_min, volume_max]`
provided `volume_min` and `volume_max` are themselves integer multiples of
a positive `volume_step` (for arbitrary symbol metadata the rounding can
leave the interval). -/
theorem claim2_theorem (si : SymbolInfo) (volume : ℚ) :
    (∃ n : ℤ, get_modified_volume si volume = (n : ℚ) * si.volume_step)
    ∧ (0 < si.volume_step → si.volume_min ≤ si.volume_max →
       (∃ a : ℤ, si.volume_min = (a : ℚ) * si.volume_step) →
       (∃ b : ℤ, si.volume_max = (b : ℚ) * si.volume_step) →
       si.volume_min ≤ get_modified_volume si volume ∧
         get_modified_volume si volume ≤ si.volume_max) := by
  refine ⟨get_modified_volume_dvd si volume, ?_⟩
  rintro hstep hmm ⟨a, ha⟩ ⟨b, hb⟩
  exact get_modified_volume_bounds si volume hstep hmm a b ha hb

/-- C2 witness: at the boundary raw volume `100` (action component `1`
scaled by `100`) and realistic symbol metadata. -/
theorem claim2_witness :
    (∃ n : ℤ, get_modified_volume demoSI 100 = (n : ℚ) * demoSI.volume_step)
    ∧ (demoSI.volume_min ≤ get_modified_volume demoSI 100 ∧
       get_modified_volume demoSI 100 ≤ demoSI.volume_max) :=
  ⟨(claim2_theorem demoSI 100).1,
   (claim2_theorem demoSI 100).2 (by norm_num [demoSI]) (by norm_num [demoSI])
     ⟨1, by norm_num [demoSI]⟩ ⟨100, by norm_num [demoSI]⟩⟩

def cexSI : SymbolInfo :=
  { volume_min := 1/100
    volume_max := 1
    volume_step := 3/100 }

/-- C2 counterexample to the claim as stated: for a symbol whose
`volume_min = 1/100` is not a multiple of `volume_step = 3/100`, the raw
volume `1/100` is clipped to `1/100` and then rounded to `0 * volume_step
= 0`, which lies strictly below `volume_min`. -/
theorem claim2_counterexample :
    get_modified_volume cexSI (1/100) < cexSI.volume_min := by
  have hclip : clipQ |(1:ℚ)/100| (1/100) 1 = 1/100 := by
    rw [clipQ, abs_of_pos (by norm_num), max_self, min_eq_right (by norm_num)]
  have hf : ⌊(1:ℚ)/3⌋ = 0 := Int.floor_eq_iff.mpr (by norm_num)
  have hround : pythonRound ((1:ℚ)/3) = 0 := by
    rw [pythonRound, hf]
    norm_num
  have h0 : get_modified_volume cexSI (1/100) = 0 := by
    show (pythonRound (clipQ |(1:ℚ)/100| (1/100) 1 / (3/100)) : ℚ) * (3/100) = 0
    rw [hclip, show ((1:ℚ)/100) / (3/100) = 1/3 by norm_num, hround]
    norm_num
  rw [h0]
  norm_num [cexSI]

/-! ## Claim C4: logarithmic reward -/

/-- C4: the logarithmic reward is `ln(cur/prev)` when both equities are
strictly positive and exactly the sentinel floor `-10` when either is
non-positive; in particular `(100, 50) ↦ ln(1/2)` and `(100, 0) ↦ -10`.
The denotation is a total real-valued function, so no non-finite value or
exception arises. -/
theorem claim4_theorem (prev cur : ℚ) :
    ((0 < prev ∧ 0 < cur) →
      (calculate_log_reward prev cur).toReal = Real.log ((cur : ℝ) / (prev : ℝ)))
    ∧ ((prev ≤ 0 ∨ cur ≤ 0) → (calculate_log_reward prev cur).toReal = -10)
    ∧ (calculate_log_reward 100 50).toReal = Real.log ((1 : ℝ) / 2)
    ∧ (calculate_log_reward 100 0).toReal = -10 := by
  refine ⟨?_, ?_, ?_, ?_⟩
  · intro h
    rw [calculate_log_reward, if_pos h]
    rfl
  · intro h
    rw [calculate_log_reward, if_neg]
    · rfl
    · rintro ⟨h1, h2⟩
      rcases h with h | h <;> linarith
  · rw [calculate_log_reward, if_pos (by norm_num)]
    show Real.log (((50 : ℚ) : ℝ) / ((100 : ℚ) : ℝ)) = Real.log ((1 : ℝ) / 2)
    norm_num
  · rw [calculate_log_reward, if_neg (by norm_num)]
    rfl

/-- C4 witness: the floor case applied at the concrete pair `(100, 0)`. -/
theorem claim4_witness : (calculate_log_reward 100 0).toReal = -10 :=
  (claim4_theorem 100 0).2.1 (Or.inr (by norm_num))

/-! ## Claim C5: linear reward additivity -/

/-- C5: the linear reward is `(cur - prev) / initial_balance * 100`, and
over an equity sequence `[E0, E1, E2]` the two-step sum equals the direct
one-step reward from `E0` to `E2`. -/
theorem claim5_theorem (E0 E1 E2 init : ℚ) (h : 0 < init) :
    calculate_reward E0 E1 init = (E1 - E0) / init * 100
    ∧ calculate_reward E0 E1 init + calculate_reward E1 E2 init =
        calculate_reward E0 E2 init := by
  refine ⟨rfl, ?_⟩
  unfold calculate_reward
  field_simp
  ring

/-- C5 witness: additivity at the concrete sequence `[100, 110, 90]` with
initial balance `100`. -/
theorem claim5_witness :
    calculate_reward 100 110 100 + calculate_reward 110 90 100 =
      calculate_reward 100 90 100 :=
  (claim5_theorem 100 110 90 100 (by norm_num)).2

/-! ## Claim C3: time-window sampling -/

lemma np_integers_bounds {lo hi : ℕ} {r : Rng} {x : ℕ} {r2 : Rng}
    (h : np_integers lo hi r = some (x, r2)) : lo ≤ x ∧ x < hi := by
  unfold np_integers at h
  by_cases hlt : lo < hi
  · rw [if_pos hlt] at h
    simp only [Option.some.injEq, Prod.mk.injEq] at h
    obtain ⟨hx, _⟩ := h
    have hmod : r.val % (hi - lo) < hi - lo := Nat.mod_lt _ (by omega)
    omega
  · rw [if_neg hlt] at h
    exact absurd h (by simp)

lemma np_integers_pos (lo hi : ℕ) (r : Rng) (hlt : lo < hi) :
    np_integers lo hi r = some (lo + r.val % (hi - lo), r.advance) := by
  unfold np_integers
  rw [if_pos hlt]

lemma sampleWindow_bounds {is me ml mxl : ℕ} {r : Rng} {s e : ℕ} {r2 : Rng}
    (h : sampleWindow is me ml mxl r = some ((s, e), r2)) :
    is ≤ s ∧ s < me - ml ∧ s + ml ≤ e ∧ e < min me (s + mxl) := by
  unfold sampleWindow at h
  cases h1 : np_integers is (me - ml) r with
  | none => simp [h1] at h
  | some p =>
      obtain ⟨s1, r1⟩ := p
      simp only [h1] at h
      cases h2 : np_integers (s1 + ml) (min me (s1 + mxl)) r1 with
      | none => simp [h2] at h
      | some q =>
          obtain ⟨e1, r2x⟩ := q
          simp only [h2, Option.some.injEq, Prod.mk.injEq] at h
          obtain ⟨⟨hs, he⟩, _⟩ := h
          subst hs
          subst he
          have b1 := np_integers_bounds h1
          have b2 := np_integers_bounds h2
          exact ⟨b1.1, b1.2, b2.1, b2.2⟩

lemma sampleWindow_attain (is me ml mxl s e : ℕ)
    (h1 : is ≤ s) (h2 : s < me - ml) (h3 : s + ml ≤ e)
    (h4 : e < min me (s + mxl)) :
    ∃ r r2 : Rng, sampleWindow is me ml mxl r = some ((s, e), r2) := by
  classical
  refine ⟨⟨fun n => if n = 0 then s - is else e - (s + ml), 0⟩,
    ⟨fun n => if n = 0 then s - is else e - (s + ml), 2⟩, ?_⟩
  have hv0 : (Rng.val ⟨fun n => if n = 0 then s - is else e - (s + ml), 0⟩) = s - is := by
    simp [Rng.val]
  have hv1 : (Rng.val ⟨fun n => if n = 0 then s - is else e - (s + ml), 1⟩) = e - (s + ml) := by
    simp [Rng.val]
  unfold sampleWindow
  rw [np_integers_pos is (me - ml) _ (by omega), hv0,
    Nat.mod_eq_of_lt (show s - is < me - ml - is by omega),
    show is + (s - is) = s by omega]
  show (match np_integers (s + ml) (min me (s + mxl))
      ⟨fun n => if n = 0 then s - is else e - (s + ml), 0 + 1⟩ with
    | none => none
    | some (e1, r2) => some ((s, e1), r2)) = _
  rw [np_integers_pos (s + ml) (min me (s + mxl)) _ (by omega), hv1,
    Nat.mod_eq_of_lt (show e - (s + ml) < min me (s + mxl) - (s + ml) by omega),
    show s + ml + (e - (s + ml)) = e by omega]
  rfl

lemma resetWithWindow_ticks {b : BaseEnv} {sim1 : Sim} {ib : ℚ} {rng1 : Rng}
    {st : EnvState} (h : resetWithWindow b sim1 ib rng1 = some st) :
    ∃ r2 : Rng, sampleWindow b.cfg.initial_start_tick b.cfg.max_end_tick
      b.cfg.min_time_split_length b.cfg.max_time_split_length rng1 =
      some ((st.start_tick, st.end_tick), r2) := by
  unfold resetWithWindow at h
  cases hsw : sampleWindow b.cfg.initial_start_tick b.cfg.max_end_tick
      b.cfg.min_time_split_length b.cfg.max_time_split_length rng1 with
  | none => simp [hsw] at h
  | some p =>
      obtain ⟨⟨s, e⟩, r2⟩ := p
      simp only [hsw, Option.some.injEq] at h
      refine ⟨r2, ?_⟩
      rw [← h]

/-- C3 (amended): with time-windowing enabled, any successful `reset`
samples `start_tick` from the half-open range `[initialStartTick,
maxEndTick - minLength)` and `end_tick` from the half-open range
`[start_tick + minLength, min(maxEndTick, start_tick + maxLength))` — the
upper endpoints are exclusive, one less than the claimed inclusive
intervals — so `end_tick - start_tick >= minLength` and `end_tick <
maxEndTick`; and every value of the half-open ranges is attainable by some
RNG state. -/
theorem claim3_theorem (b : BaseEnv) (seed : Option ℕ) (st : EnvState)
    (hts : b.cfg.time_split = true)
    (hreset : resetEnv b seed = some st) :
    (b.cfg.initial_start_tick ≤ st.start_tick
     ∧ st.start_tick < b.cfg.max_end_tick - b.cfg.min_time_split_length
     ∧ st.start_tick + b.cfg.min_time_split_length ≤ st.end_tick
     ∧ st.end_tick < min b.cfg.max_end_tick (st.start_tick + b.cfg.max_time_split_length)
     ∧ b.cfg.min_time_split_length ≤ st.end_tick - st.start_tick
     ∧ st.end_tick ≤ b.cfg.max_end_tick)
    ∧ (∀ s e : ℕ,
        b.cfg.initial_start_tick ≤ s →
        s < b.cfg.max_end_tick - b.cfg.min_time_split_length →
        s + b.cfg.min_time_split_length ≤ e →
        e < min b.cfg.max_end_tick (s + b.cfg.max_time_split_length) →
        ∃ r r2 : Rng,
          sampleWindow b.cfg.initial_start_tick b.cfg.max_end_tick
            b.cfg.min_time_split_length b.cfg.max_time_split_length r =
            some ((s, e), r2)) := by
  constructor
  · simp only [resetEnv, hts, if_true] at hreset
    obtain ⟨r2, hsw⟩ := resetWithWindow_ticks hreset
    have hb := sampleWindow_bounds hsw
    have hmin : st.end_tick < b.cfg.max_end_tick := lt_of_lt_of_le hb.2.2.2 (min_le_left _ _)
    exact ⟨hb.1, hb.2.1, hb.2.2.1, hb.2.2.2, by omega, by omega⟩
  · intro s e h1 h2 h3 h4
    exact sampleWindow_attain _ _ _ _ s e h1 h2 h3 h4

def c3Cfg : EnvConfig :=
  { demoCfg with
    time_split := true
    max_end_tick := 30 }

def c3Base : BaseEnv :=
  { c1Base with cfg := c3Cfg }

def c3State : EnvState := (resetEnv c3Base none).getD junkState

/-- C3 witness: a concrete time-split reset (seed stream `42`) lands at
`start_tick = 2`, `end_tick = 19` inside the sampled window. -/
theorem claim3_witness :
    c3Base.cfg.initial_start_tick ≤ c3State.start_tick
    ∧ c3Base.cfg.min_time_split_length ≤ c3State.end_tick - c3State.start_tick
    ∧ c3State.end_tick ≤ c3Base.cfg.max_end_tick :=
  have h := (claim3_theorem c3Base none c3State rfl rfl).1
  ⟨h.1, h.2.2.2.2.1, h.2.2.2.2.2⟩

def c3CexCfg : EnvConfig :=
  { demoCfg with
    time_split := true
    initial_start_tick := 0
    max_end_tick := 20
    min_time_split_length := 10
    max_time_split_length := 200 }

def c3CexBase : BaseEnv :=
  { c1Base with cfg := c3CexCfg }

/-- C3 counterexample to the claim as stated: with `initialStartTick = 0`,
`maxEndTick = 20`, `minLength = 10`, the claim asserts `start_tick` ranges
over the inclusive interval `[0, 10]` with every value attainable, but the
upper endpoint `10` is never sampled — `integers(low, high)` excludes
`high` — for any RNG state and any seed. -/
theorem claim3_counterexample :
    ¬ ∃ (r : Rng) (seed : Option ℕ) (st : EnvState),
        resetEnv { c3CexBase with rng := r } seed = some st ∧
          st.start_tick = 10 := by
  rintro ⟨r, seed, st, hreset, hstart⟩
  simp only [resetEnv] at hreset
  have hts : ({ c3CexBase with rng := r } : BaseEnv).cfg.time_split = true := rfl
  rw [if_pos hts] at hreset
  obtain ⟨r2, hsw⟩ := resetWithWindow_ticks hreset
  have hb := sampleWindow_bounds hsw
  have : st.start_tick < 20 - 10 := hb.2.1
  omega

/-! ## Claim C6: history length invariant -/

lemma resetWithWindow_shape {b : BaseEnv} {sim1 : Sim} {ib : ℚ} {rng1 : Rng}
    {st : EnvState} (h : resetWithWindow b sim1 ib rng1 = some st) :
    st.current_tick = st.start_tick ∧ st.history.length = 1 := by
  unfold resetWithWindow at h
  cases hsw : sampleWindow b.cfg.initial_start_tick b.cfg.max_end_tick
      b.cfg.min_time_split_length b.cfg.max_time_split_length rng1 with
  | none => simp [hsw] at h
  | some p =>
      obtain ⟨⟨s, e⟩, r2⟩ := p
      simp only [hsw, Option.some.injEq] at h
      rw [← h]
      exact ⟨rfl, rfl⟩

lemma resetEnv_shape {b : BaseEnv} {seed : Option ℕ} {st : EnvState}
    (h : resetEnv b seed = some st) :
    st.current_tick = st.start_tick ∧ st.history.length = 1 := by
  simp only [resetEnv] at h
  by_cases hts : b.cfg.time_split = true
  · rw [if_pos hts] at h
    exact resetWithWindow_shape h
  · rw [if_neg hts] at h
    simp only [Option.some.injEq] at h
    rw [← h]
    exact ⟨rfl, rfl⟩

lemma stepEnv_fields (st : EnvState) (a : List ℚ) :
    (stepEnv st a).1.current_tick = st.current_tick + 1 ∧
    (stepEnv st a).1.start_tick = st.start_tick ∧
    (stepEnv st a).1.history.length = st.history.length + 1 := by
  refine ⟨rfl, rfl, ?_⟩
  show (st.history ++ [_]).length = st.history.length + 1
  simp

/-- C6: after `reset` and after every subsequent `step` of the episode,
the history holds exactly `current_tick - start_tick + 1` records — each
step appends exactly one record while advancing the tick by one, and reset
re-establishes the base case with a single record. -/
theorem claim6_theorem (b : BaseEnv) (st : EnvState) (h : Reachable b st) :
    st.start_tick ≤ st.current_tick ∧
    st.history.length = st.current_tick - st.start_tick + 1 := by
  induction h with
  | reset seed st hr =>
      have hs := resetEnv_shape hr
      constructor
      · omega
      · rw [hs.2, hs.1]
        omega
  | step st a hr ih =>
      have hf := stepEnv_fields st a
      rw [hf.1, hf.2.1, hf.2.2]
      omega

/-- C6 witness: the invariant at a concrete freshly reset episode. -/
theorem claim6_witness :
    c1State.start_tick ≤ c1State.current_tick ∧
    c1State.history.length = c1State.current_tick - c1State.start_tick + 1 :=
  claim6_theorem c1Base c1State (Reachable.reset none c1State rfl)

/-! ## Claim C7: open-order bound per instrument -/

section ListCountHelpers

variable {α : Type} [DecidableEq α]

lemma filter_erase_pos (p : α → Bool) (a : α) (hp : p a = true) :
    ∀ l : List α, (l.erase a).filter p = (l.filter p).erase a := by
  intro l
  induction l with
  | nil => simp
  | cons x xs ih =>
      by_cases hxa : x = a
      · subst hxa
        rw [List.erase_cons_head, List.filter_cons_of_pos hp, List.erase_cons_head]
      · rw [List.erase_cons_tail (by simp [hxa])]
        cases hpx : p x with
        | true =>
            rw [List.filter_cons_of_pos hpx, List.filter_cons_of_pos hpx,
              List.erase_cons_tail (by simp [hxa]), ih]
        | false =>
            rw [List.filter_cons_of_neg (by simp [hpx]),
              List.filter_cons_of_neg (by simp [hpx]), ih]

lemma filter_erase_neg (p : α → Bool) (a : α) (hp : p a = false) :
    ∀ l : List α, (l.erase a).filter p = l.filter p := by
  intro l
  induction l with
  | nil => simp
  | cons x xs ih =>
      by_cases hxa : x = a
      · subst hxa
        rw [List.erase_cons_head, List.filter_cons_of_neg (by simp [hp])]
      · rw [List.erase_cons_tail (by simp [hxa])]
        cases hpx : p x with
        | true =>
            rw [List.filter_cons_of_pos hpx, List.filter_cons_of_pos hpx, ih]
        | false =>
            rw [List.filter_cons_of_neg (by simp [hpx]),
              List.filter_cons_of_neg (by simp [hpx]), ih]

lemma diff_filter_neg (q : α → Bool) :
    ∀ (ds l : List α), (∀ x ∈ ds, q x = false) →
      (l.diff ds).filter q = l.filter q := by
  intro ds
  induction ds with
  | nil =>
      intro l _
      simp
  | cons a ds ih =>
      intro l hq
      rw [List.diff_cons, ih (l.erase a) (fun x hx => hq x (List.mem_cons_of_mem a hx)),
        filter_erase_neg q a (hq a (List.mem_cons_self a ds))]

lemma diff_filter_pos (p : α → Bool) :
    ∀ (ds l : List α), List.Sublist ds (l.filter p) →
      ((l.diff ds).filter p).length = (l.filter p).length - ds.length := by
  intro ds
  induction ds with
  | nil =>
      intro l _
      simp
  | cons a ds ih =>
      intro l hsub
      have ha : a ∈ l.filter p := hsub.subset (List.mem_cons_self a ds)
      have hpa : p a = true := List.of_mem_filter ha
      have herase : List.Sublist ds ((l.filter p).erase a) := by
        have h2 := hsub.erase a
        rwa [List.erase_cons_head] at h2
      have hds : List.Sublist ds ((l.erase a).filter p) := by
        rw [filter_erase_pos p a hpa]
        exact herase
      have hlen1 : ((l.filter p).erase a).length + 1 = (l.filter p).length :=
        List.length_erase_add_one ha
      have hdlen : ds.length ≤ ((l.filter p).erase a).length := herase.length_le
      rw [List.diff_cons, ih (l.erase a) hds, filter_erase_pos p a hpa]
      simp only [List.length_cons]
      omega

lemma diff_length_sublist :
    ∀ (ds l : List α), List.Sublist ds l →
      (l.diff ds).length = l.length - ds.length := by
  intro ds
  induction ds with
  | nil =>
      intro l _
      simp
  | cons a ds ih =>
      intro l hsub
      have ha : a ∈ l := hsub.subset (List.mem_cons_self a ds)
      have herase : List.Sublist ds (l.erase a) := by
        have h2 := hsub.erase a
        rwa [List.erase_cons_head] at h2
      have hlen1 : (l.erase a).length + 1 = l.length := List.length_erase_add_one ha
      have hdlen : ds.length ≤ (l.erase a).length := herase.length_le
      rw [List.diff_cons, ih (l.erase a) herase]
      simp only [List.length_cons]
      omega

end ListCountHelpers

lemma zip_map_fst_sublist {α β : Type} :
    ∀ (l1 : List α) (l2 : List β), List.Sublist ((l1.zip l2).map Prod.fst) l1 := by
  intro l1
  induction l1 with
  | nil =>
      intro l2
      simp
  | cons a l1 ih =>
      intro l2
      cases l2 with
      | nil => simp
      | cons b l2 => simpa using (ih l2).cons₂ a

lemma sampleCloses_map_fst :
    ∀ (pairs : List (Order × ℚ)) (r : Rng),
      (sampleCloses pairs r).1.map (fun x => x.1) = pairs.map Prod.fst := by
  intro pairs
  induction pairs with
  | nil =>
      intro r
      rfl
  | cons x rest ih =>
      intro r
      obtain ⟨o, p⟩ := x
      simp only [sampleCloses, List.map_cons]
      rw [ih]

lemma closeOrdersList_fields :
    ∀ (pairs : List (Order × ℚ)) (sim : Sim),
      (closeOrdersList sim pairs).1.orders = sim.orders.diff (pairs.map Prod.fst)
      ∧ (closeOrdersList sim pairs).1.hedge = sim.hedge
      ∧ (closeOrdersList sim pairs).1.next_id = sim.next_id
      ∧ (closeOrdersList sim pairs).1.symbols_info = sim.symbols_info
      ∧ (closeOrdersList sim pairs).2.length = pairs.length := by
  intro pairs
  induction pairs with
  | nil =>
      intro sim
      exact ⟨by simp [closeOrdersList], rfl, rfl, rfl, rfl⟩
  | cons x rest ih =>
      intro sim
      obtain ⟨o, p⟩ := x
      have h := ih (close_order sim o)
      refine ⟨?_, ?_, ?_, ?_, ?_⟩
      · show (closeOrdersList (close_order sim o) rest).1.orders = _
        rw [h.1]
        show (sim.orders.erase o).diff (rest.map Prod.fst) = _
        rw [List.map_cons, List.diff_cons]
      · exact h.2.1
      · exact h.2.2.1
      · exact h.2.2.2.1
      · show ((closeOrdersList (close_order sim o) rest).2.length + 1) = rest.length + 1
        rw [h.2.2.2.2]

lemma create_order_ok {world : World} {otype : OrderType} {symbol : String}
    {volume fee : ℚ} {sim : Sim} {o : Order} {sim2 : Sim}
    (h : create_order world otype symbol volume fee sim = Except.ok (o, sim2)) :
    o.symbol = symbol ∧ sim2.hedge = sim.hedge
    ∧ sim2.symbols_info = sim.symbols_info
    ∧ sim2.next_id = sim.next_id + 1
    ∧ sim2.orders = (if sim.hedge then sim.orders ++ [o]
        else (sim.orders.filter (fun x => !(x.symbol == symbol))) ++ [o]) := by
  unfold create_order at h
  cases hr : world.reject symbol sim.next_id with
  | some e =>
      rw [hr] at h
      exact absurd h (by simp)
  | none =>
      simp only [hr, Except.ok.injEq, Prod.mk.injEq] at h
      obtain ⟨ho, hs⟩ := h
      subst ho
      subst hs
      exact ⟨rfl, rfl, rfl, rfl, rfl⟩

lemma create_order_error {world : World} {otype : OrderType} {symbol : String}
    {volume fee : ℚ} {sim : Sim} {e : String}
    (h : create_order world otype symbol volume fee sim = Except.error e) :
    world.reject symbol sim.next_id = some e := by
  unfold create_order at h
  cases hr : world.reject symbol sim.next_id with
  | some e2 =>
      rw [hr] at h
      simp only [Except.error.injEq] at h
      rw [h]
  | none =>
      rw [hr] at h
      exact absurd h (by simp)

/-- The per-instrument open-order bound: `symbol_max_orders` in hedge
(multi-order) mode, `1` otherwise (spec glossary). -/
def orderBound (cfg : EnvConfig) (sim : Sim) : ℕ :=
  if sim.hedge then cfg.symbol_max_orders else 1

lemma symbol_orders_def (sim : Sim) (sym : String) :
    symbol_orders sim sym = sim.orders.filter (fun o => o.symbol == sym) := rfl


lemma processSymbolCore_sim (cfg : EnvConfig) (world : World) (symbol : String)
    (hold : Bool) (hp volume : ℚ) (toClose : List (Order × ℚ)) (sim : Sim) (rng2 : Rng)
    (hsub : List.Sublist (toClose.map Prod.fst) (symbol_orders sim symbol))
    (hinv : ∀ sym, (symbol_orders sim sym).length ≤ orderBound cfg sim) :
    (processSymbolCore cfg world symbol hold hp volume
        (symbol_orders sim symbol).length toClose sim rng2).2.2.1.hedge = sim.hedge
    ∧ ∀ sym, (symbol_orders (processSymbolCore cfg world symbol hold hp volume
        (symbol_orders sim symbol).length toClose sim rng2).2.2.1 sym).length
        ≤ orderBound cfg sim := by
  have hclen : (toClose.map Prod.fst).length = toClose.length := by simp
  have hcf := closeOrdersList_fields toClose sim
  have hcn : toClose.length ≤ (symbol_orders sim symbol).length := by
    have h1 := hsub.length_le
    omega
  have hcount_symbol : (symbol_orders (closeOrdersList sim toClose).1 symbol).length =
      (symbol_orders sim symbol).length - toClose.length := by
    rw [symbol_orders_def, hcf.1]
    have h2 := diff_filter_pos (fun o => o.symbol == symbol) (toClose.map Prod.fst)
      sim.orders (by rw [← symbol_orders_def]; exact hsub)
    rw [h2, hclen]
    rfl
  have hq : ∀ sym : String, sym ≠ symbol →
      ∀ x ∈ toClose.map Prod.fst, (x.symbol == sym) = false := by
    intro sym hne x hx
    have hmem : x ∈ symbol_orders sim symbol := hsub.subset hx
    rw [symbol_orders_def] at hmem
    have hx2 : (x.symbol == symbol) = true := (List.mem_filter.mp hmem).2
    have hx3 : x.symbol = symbol := by simpa using hx2
    rw [hx3]
    simp [Ne.symm hne]
  have hcount_other : ∀ sym : String, sym ≠ symbol →
      symbol_orders (closeOrdersList sim toClose).1 sym = symbol_orders sim sym := by
    intro sym hne
    rw [symbol_orders_def, symbol_orders_def, hcf.1]
    exact diff_filter_neg _ (toClose.map Prod.fst) sim.orders (hq sym hne)
  have hNoCreate : (closeOrdersList sim toClose).1.hedge = sim.hedge ∧
      ∀ sym, (symbol_orders (closeOrdersList sim toClose).1 sym).length
        ≤ orderBound cfg sim := by
    refine ⟨hcf.2.1, ?_⟩
    intro sym
    by_cases hne : sym = symbol
    · subst hne
      rw [hcount_symbol]
      have := hinv sym
      omega
    · rw [hcount_other sym hne]
      exact hinv sym
  simp only [processSymbolCore]
  generalize (if 0 < volume then OrderType.Buy else OrderType.Sell) = otype
  split_ifs with hcap hhold
  · exact hNoCreate
  · rcases hc : create_order world otype symbol
        (get_modified_volume (sim.symbols_info symbol) volume)
        (resolveFee cfg.fee symbol) (closeOrdersList sim toClose).1 with e | res
    · simp only [hc]
      exact hNoCreate
    · obtain ⟨o, sim3⟩ := res
      simp only [hc]
      have hok := create_order_ok hc
      have hhedge3 : sim3.hedge = sim.hedge := by rw [hok.2.1, hcf.2.1]
      refine ⟨hhedge3, ?_⟩
      intro sym
      by_cases hh : sim.hedge = true
      · have horders3 : sim3.orders = (closeOrdersList sim toClose).1.orders ++ [o] := by
          rw [hok.2.2.2.2, if_pos (by rw [hcf.2.1]; exact hh)]
        by_cases hne : sym = symbol
        · subst hne
          rw [symbol_orders_def, horders3, List.filter_append]
          have hpo : (o.symbol == sym) = true := by simp [hok.1]
          rw [show (List.filter (fun x => x.symbol == sym) [o]) = [o] by simp [hpo]]
          rw [List.length_append]
          have hc2 : ((closeOrdersList sim toClose).1.orders.filter
              (fun x => x.symbol == sym)).length =
              (symbol_orders sim sym).length - toClose.length := by
            rw [← symbol_orders_def]
            exact hcount_symbol
          rw [hc2]
          have hcapne : ¬((cfg.symbol_max_orders : ℤ) -
              (((symbol_orders sim sym).length : ℤ) - (toClose.length : ℤ)) = 0) := by
            intro hz
            exact hcap ⟨hh, hz⟩
          have hb := hinv sym
          rw [orderBound, if_pos hh] at hb
          rw [orderBound, if_pos hh]
          simp only [List.length_singleton]
          omega
        · rw [symbol_orders_def, horders3, List.filter_append]
          have hpo : (o.symbol == sym) = false := by
            rw [hok.1]
            simp [Ne.symm hne]
          rw [show (List.filter (fun x => x.symbol == sym) [o]) = [] by simp [hpo]]
          rw [List.append_nil, ← symbol_orders_def, hcount_other sym hne]
          exact hinv sym
      · have hh2 : sim.hedge = false := by
          cases hhed : sim.hedge
          · rfl
          · exact absurd hhed hh
        have horders3 : sim3.orders =
            ((closeOrdersList sim toClose).1.orders.filter
              (fun x => !(x.symbol == symbol))) ++ [o] := by
          rw [hok.2.2.2.2, if_neg (by rw [hcf.2.1, hh2]; simp)]
        by_cases hne : sym = symbol
        · subst hne
          rw [symbol_orders_def, horders3, List.filter_append]
          have hpo : (o.symbol == sym) = true := by simp [hok.1]
          rw [show (List.filter (fun x => x.symbol == sym) [o]) = [o] by simp [hpo]]
          rw [List.filter_filter]
          have hall : ∀ x ∈ (closeOrdersList sim toClose).1.orders,
              ((x.symbol == sym) && !(x.symbol == sym)) = false := by
            intro x _
            cases hxx : (x.symbol == sym) <;> simp [hxx]
          rw [List.filter_congr hall]
          rw [orderBound, if_neg (by rw [hh2]; simp)]
          simp
        · rw [symbol_orders_def, horders3, List.filter_append]
          have hpo : (o.symbol == sym) = false := by
            rw [hok.1]
            simp [Ne.symm hne]
          rw [show (List.filter (fun x => x.symbol == sym) [o]) = [] by simp [hpo]]
          rw [List.append_nil, List.filter_filter]
          have hall : ∀ x ∈ (closeOrdersList sim toClose).1.orders,
              ((x.symbol == sym) && !(x.symbol == symbol)) = (x.symbol == sym) := by
            intro x _
            cases hxx : (x.symbol == sym)
            · simp
            · have : x.symbol = sym := by simpa using hxx
              simp [hxx, this, hne]
          rw [List.filter_congr hall, ← symbol_orders_def, hcount_other sym hne]
          exact hinv sym
  · exact hNoCreate

lemma processSymbol_spec (cfg : EnvConfig) (world : World) (symbolAction : List ℚ)
    (symbol : String) (sim : Sim) (rng : Rng) :
    ∃ (hold : Bool) (hp volume : ℚ) (toClose : List (Order × ℚ)) (rng2 : Rng),
      List.Sublist (toClose.map Prod.fst) (symbol_orders sim symbol) ∧
      volume = symbolAction.getD (cfg.symbol_max_orders + 2 - 1) 0 * 100 ∧
      processSymbol cfg world symbolAction symbol sim rng =
        processSymbolCore cfg world symbol hold hp volume
          (symbol_orders sim symbol).length toClose sim rng2 := by
  refine ⟨_, _, _, _, _, ?_, rfl, rfl⟩
  rw [List.map_map]
  have hcomp : (Prod.fst ∘ fun (x : Order × ℚ × Bool) => (x.1, x.2.1)) =
      fun (x : Order × ℚ × Bool) => x.1 := rfl
  rw [hcomp]
  have h1 := (List.filter_sublist (p := fun (x : Order × ℚ × Bool) => x.2.2)
    (sampleCloses ((symbol_orders sim symbol).zip
      (((symbolAction.take (cfg.symbol_max_orders + 2 - 2)).map probOfLogit).take
        (symbol_orders sim symbol).length))
      (bernoulli_draw (probOfLogit (symbolAction.getD (cfg.symbol_max_orders + 2 - 2) 0)) rng).2).1)
  have h2 := h1.map (fun (x : Order × ℚ × Bool) => x.1)
  rw [sampleCloses_map_fst] at h2
  exact h2.trans (zip_map_fst_sublist _ _)

lemma applyActionGo_sim (cfg : EnvConfig) (world : World) (action : List ℚ) :
    ∀ (syms : List String) (i : ℕ) (sim : Sim) (rng : Rng),
      (∀ sym, (symbol_orders sim sym).length ≤ orderBound cfg sim) →
      ((applyActionGo cfg world action syms i sim rng).2.2.1.hedge = sim.hedge ∧
       ∀ sym, (symbol_orders (applyActionGo cfg world action syms i sim rng).2.2.1 sym).length
         ≤ orderBound cfg sim) := by
  intro syms
  induction syms with
  | nil =>
      intro i sim rng hinv
      exact ⟨rfl, hinv⟩
  | cons s rest ih =>
      intro i sim rng hinv
      simp only [applyActionGo]
      obtain ⟨hold, hp, vol, toClose, rng2, hsub, hveq, heq⟩ :=
        processSymbol_spec cfg world
          ((action.drop ((cfg.symbol_max_orders + 2) * i)).take (cfg.symbol_max_orders + 2))
          s sim rng
      have hcore := processSymbolCore_sim cfg world s hold hp vol toClose sim rng2 hsub hinv
      rw [← heq] at hcore
      set mid := processSymbol cfg world
        ((action.drop ((cfg.symbol_max_orders + 2) * i)).take (cfg.symbol_max_orders + 2))
        s sim rng with hmiddef
      have hbnd : orderBound cfg mid.2.2.1 = orderBound cfg sim := by
        unfold orderBound
        rw [hcore.1]
      have hmid : ∀ sym, (symbol_orders mid.2.2.1 sym).length ≤ orderBound cfg mid.2.2.1 := by
        intro sym
        rw [hbnd]
        exact hcore.2 sym
      have htail := ih (i + 1) mid.2.2.1 mid.2.2.2 hmid
      refine ⟨?_, ?_⟩
      · rw [htail.1, hcore.1]
      · intro sym
        have h3 := htail.2 sym
        rw [hbnd] at h3
        exact h3

lemma stepEnv_sim_inv (e : EnvState) (a : List ℚ)
    (hinv : ∀ sym, (symbol_orders e.sim sym).length ≤ orderBound e.cfg e.sim) :
    (stepEnv e a).1.sim.hedge = e.sim.hedge ∧
    ∀ sym, (symbol_orders (stepEnv e a).1.sim sym).length ≤ orderBound e.cfg e.sim := by
  have happ := applyActionGo_sim e.cfg e.world a e.cfg.trading_symbols 0 e.sim e.rng hinv
  exact ⟨happ.1, happ.2⟩

lemma resetWithWindow_sim {b : BaseEnv} {sim1 : Sim} {ib : ℚ} {rng1 : Rng}
    {st : EnvState} (h : resetWithWindow b sim1 ib rng1 = some st) :
    st.cfg = b.cfg ∧ st.sim.hedge = sim1.hedge ∧ st.sim.orders = sim1.orders := by
  unfold resetWithWindow at h
  cases hsw : sampleWindow b.cfg.initial_start_tick b.cfg.max_end_tick
      b.cfg.min_time_split_length b.cfg.max_time_split_length rng1 with
  | none => simp [hsw] at h
  | some p =>
      obtain ⟨⟨s, e⟩, r2⟩ := p
      simp only [hsw, Option.some.injEq] at h
      rw [← h]
      exact ⟨rfl, rfl, rfl⟩

lemma resetEnv_sim {b : BaseEnv} {seed : Option ℕ} {st : EnvState}
    (h : resetEnv b seed = some st) :
    st.cfg = b.cfg ∧ st.sim.hedge = b.original_sim.hedge ∧
    st.sim.orders = b.original_sim.orders := by
  simp only [resetEnv] at h
  by_cases hts : b.cfg.time_split = true
  · rw [if_pos hts] at h
    have h2 := resetWithWindow_sim h
    refine ⟨h2.1, ?_, ?_⟩
    · rw [h2.2.1]
      by_cases hr : b.cfg.randomize_initial_balance = true
      · rw [if_pos hr]
      · rw [if_neg hr]
    · rw [h2.2.2]
      by_cases hr : b.cfg.randomize_initial_balance = true
      · rw [if_pos hr]
      · rw [if_neg hr]
  · rw [if_neg hts] at h
    simp only [Option.some.injEq] at h
    rw [← h]
    refine ⟨rfl, ?_, ?_⟩
    · by_cases hr : b.cfg.randomize_initial_balance = true
      · show (if b.cfg.randomize_initial_balance = true then _ else _ : Sim × ℚ × Rng).1.hedge = _
        rw [if_pos hr]
      · show (if b.cfg.randomize_initial_balance = true then _ else _ : Sim × ℚ × Rng).1.hedge = _
        rw [if_neg hr]
    · by_cases hr : b.cfg.randomize_initial_balance = true
      · show (if b.cfg.randomize_initial_balance = true then _ else _ : Sim × ℚ × Rng).1.orders = _
        rw [if_pos hr]
      · show (if b.cfg.randomize_initial_balance = true then _ else _ : Sim × ℚ × Rng).1.orders = _
        rw [if_neg hr]

lemma reachable_inv (b : BaseEnv) (st : EnvState) (h : Reachable b st)
    (hinit : ∀ sym, (symbol_orders b.original_sim sym).length ≤
      orderBound b.cfg b.original_sim) :
    st.cfg = b.cfg ∧ st.sim.hedge = b.original_sim.hedge ∧
    ∀ sym, (symbol_orders st.sim sym).length ≤ orderBound b.cfg b.original_sim := by
  induction h with
  | reset seed st hr =>
      have hs := resetEnv_sim hr
      refine ⟨hs.1, hs.2.1, ?_⟩
      intro sym
      rw [symbol_orders_def, hs.2.2, ← symbol_orders_def]
      exact hinit sym
  | step st a hr ih =>
      have hbeq : orderBound st.cfg st.sim = orderBound b.cfg b.original_sim := by
        unfold orderBound
        rw [ih.1, ih.2.1]
      have hinv : ∀ sym, (symbol_orders st.sim sym).length ≤ orderBound st.cfg st.sim := by
        intro sym
        rw [hbeq]
        exact ih.2.2 sym
      have hstep := stepEnv_sim_inv st a hinv
      refine ⟨?_, ?_, ?_⟩
      · show st.cfg = b.cfg
        exact ih.1
      · rw [hstep.1]
        exact ih.2.1
      · intro sym
        have h3 := hstep.2 sym
        rw [hbeq] at h3
        exact h3

/-- C7: after a reset and any sequence of steps, the number of open orders
per instrument never exceeds `symbol_max_orders` in hedge (multi-order)
mode and never exceeds `1` with hedging disabled, provided the original
simulator state already satisfies the bound (it starts with no open
orders). -/
theorem claim7_theorem (b : BaseEnv) (st : EnvState) (h : Reachable b st)
    (hinit : ∀ sym, (symbol_orders b.original_sim sym).length ≤
      (if b.original_sim.hedge = true then b.cfg.symbol_max_orders else 1)) :
    ∀ sym, (symbol_orders st.sim sym).length ≤
      (if b.original_sim.hedge = true then b.cfg.symbol_max_orders else 1) :=
  (reachable_inv b st h hinit).2.2

/-- C7 witness: a freshly reset episode over the demo configuration. -/
theorem claim7_witness :
    (symbol_orders c1State.sim "EURUSD").length ≤
      (if c1Base.original_sim.hedge = true then c1Base.cfg.symbol_max_orders else 1) :=
  claim7_theorem c1Base c1State (Reachable.reset none c1State rfl)
    (fun sym => by simp [symbol_orders_def, c1Base, demoSim]) "EURUSD"

/-! ## Claim C8: per-instrument rejection handling -/

lemma create_order_ok_reject {world : World} {otype : OrderType} {symbol : String}
    {volume fee : ℚ} {sim : Sim} {o : Order} {sim2 : Sim}
    (h : create_order world otype symbol volume fee sim = Except.ok (o, sim2)) :
    world.reject symbol sim.next_id = none := by
  unfold create_order at h
  cases hr : world.reject symbol sim.next_id with
  | some e =>
      rw [hr] at h
      exact absurd h (by simp)
  | none => rfl

lemma processSymbolCore_reject (cfg : EnvConfig) (world : World) (symbol : String)
    (hold : Bool) (hp volume : ℚ) (toClose : List (Order × ℚ)) (sim : Sim)
    (rng2 : Rng) (msg : String)
    (hsub : List.Sublist (toClose.map Prod.fst) (symbol_orders sim symbol))
    (hmsg : world.reject symbol sim.next_id = some msg)
    (hhold : (processSymbolCore cfg world symbol hold hp volume
      (symbol_orders sim symbol).length toClose sim rng2).1.hold = false)
    (herr : (processSymbolCore cfg world symbol hold hp volume
      (symbol_orders sim symbol).length toClose sim rng2).1.error ≠
      "cannot add more orders") :
    (processSymbolCore cfg world symbol hold hp volume
      (symbol_orders sim symbol).length toClose sim rng2).1.error = msg ∧
    (processSymbolCore cfg world symbol hold hp volume
      (symbol_orders sim symbol).length toClose sim rng2).1.order_id = none ∧
    (processSymbolCore cfg world symbol hold hp volume
      (symbol_orders sim symbol).length toClose sim rng2).2.2.1.next_id = sim.next_id ∧
    (processSymbolCore cfg world symbol hold hp volume
      (symbol_orders sim symbol).length toClose sim rng2).2.2.1.orders.length =
      sim.orders.length -
        (processSymbolCore cfg world symbol hold hp volume
          (symbol_orders sim symbol).length toClose sim rng2).2.1.length := by
  have hcf := closeOrdersList_fields toClose sim
  have hds : List.Sublist (toClose.map Prod.fst) sim.orders :=
    hsub.trans (by rw [symbol_orders_def]; exact List.filter_sublist _)
  have hdiff : ((closeOrdersList sim toClose).1.orders).length =
      sim.orders.length - toClose.length := by
    rw [hcf.1, diff_length_sublist (toClose.map Prod.fst) sim.orders hds]
    simp
  simp only [processSymbolCore] at hhold herr ⊢
  split_ifs at hhold herr ⊢ with hcap hhold2
  · exact absurd rfl herr
  · rcases hc : create_order world OrderType.Buy symbol
        (get_modified_volume (sim.symbols_info symbol) volume)
        (resolveFee cfg.fee symbol) (closeOrdersList sim toClose).1 with e | res
    · have he := create_order_error hc
      rw [hcf.2.2.1, hmsg] at he
      have hem : e = msg := by
        have := Option.some.inj he
        exact this.symm
      simp only [hc]
      refine ⟨hem, trivial, hcf.2.2.1, ?_⟩
      rw [hdiff, hcf.2.2.2.2]
    · obtain ⟨o, sim3⟩ := res
      have hnone := create_order_ok_reject hc
      rw [hcf.2.2.1, hmsg] at hnone
      exact absurd hnone (by simp)
  · rcases hc : create_order world OrderType.Sell symbol
        (get_modified_volume (sim.symbols_info symbol) volume)
        (resolveFee cfg.fee symbol) (closeOrdersList sim toClose).1 with e | res
    · have he := create_order_error hc
      rw [hcf.2.2.1, hmsg] at he
      have hem : e = msg := by
        have := Option.some.inj he
        exact this.symm
      simp only [hc]
      refine ⟨hem, trivial, hcf.2.2.1, ?_⟩
      rw [hdiff, hcf.2.2.2.2]
    · obtain ⟨o, sim3⟩ := res
      have hnone := create_order_ok_reject hc
      rw [hcf.2.2.1, hmsg] at hnone
      exact absurd hnone (by simp)
  · exact absurd hhold (by simpa using hhold2)

lemma applyActionGo_coverage (cfg : EnvConfig) (world : World) (action : List ℚ) :
    ∀ (syms : List String) (i : ℕ) (sim : Sim) (rng : Rng),
      (applyActionGo cfg world action syms i sim rng).1.map Prod.fst = syms ∧
      (applyActionGo cfg world action syms i sim rng).2.1.map Prod.fst = syms := by
  intro syms
  induction syms with
  | nil =>
      intro i sim rng
      exact ⟨rfl, rfl⟩
  | cons s rest ih =>
      intro i sim rng
      simp only [applyActionGo, List.map_cons, List.cons.injEq]
      exact ⟨⟨trivial, (ih _ _ _).1⟩, ⟨trivial, (ih _ _ _).2⟩⟩

/-- C8: when the simulator rejects an order-creation request during a step
(and the instrument reached the creation branch: no hold, no capacity
error), the rejection message is recorded as that instrument's error
string, no order id is recorded, the simulator state is left exactly as
after the close phase (same next id, only the closed orders removed), and
— second conjunct — `_apply_action` always processes every instrument,
producing one intent record and one closed-orders record per instrument,
so the step completes normally. -/
theorem claim8_theorem :
    (∀ (cfg : EnvConfig) (world : World) (symbolAction : List ℚ) (symbol : String)
        (sim : Sim) (rng : Rng) (msg : String),
      world.reject symbol sim.next_id = some msg →
      (processSymbol cfg world symbolAction symbol sim rng).1.hold = false →
      (processSymbol cfg world symbolAction symbol sim rng).1.error ≠
        "cannot add more orders" →
      (processSymbol cfg world symbolAction symbol sim rng).1.error = msg ∧
      (processSymbol cfg world symbolAction symbol sim rng).1.order_id = none ∧
      (processSymbol cfg world symbolAction symbol sim rng).2.2.1.next_id = sim.next_id ∧
      (processSymbol cfg world symbolAction symbol sim rng).2.2.1.orders.length =
        sim.orders.length -
          (processSymbol cfg world symbolAction symbol sim rng).2.1.length)
    ∧ (∀ (cfg : EnvConfig) (world : World) (action : List ℚ) (syms : List String)
        (i : ℕ) (sim : Sim) (rng : Rng),
      (applyActionGo cfg world action syms i sim rng).1.map Prod.fst = syms ∧
      (applyActionGo cfg world action syms i sim rng).2.1.map Prod.fst = syms) := by
  constructor
  · intro cfg world symbolAction symbol sim rng msg hmsg hhold herr
    obtain ⟨hold, hp, vol, toClose, rng2, hsub, hveq, heq⟩ :=
      processSymbol_spec cfg world symbolAction symbol sim rng
    rw [heq] at hhold herr ⊢
    exact processSymbolCore_reject cfg world symbol hold hp vol toClose sim rng2 msg
      hsub hmsg hhold herr
  · exact applyActionGo_coverage

def c8World : World :=
  { demoWorld with reject := fun _ _ => some "margin error" }

def c8Rng : Rng :=
  { stream := fun _ => 999, pos := 0 }

lemma probOfLogit_zero : probOfLogit 0 = 1/2 := by
  rw [probOfLogit, clipQ, max_eq_right (by norm_num), min_eq_right (by norm_num)]
  norm_num

lemma c8_hold_draw : (bernoulli_draw (probOfLogit 0) c8Rng).1 = false := by
  show decide (((c8Rng.val % 1000 : ℕ) : ℚ) / 1000 < probOfLogit 0) = false
  rw [probOfLogit_zero, show (c8Rng.val % 1000 : ℕ) = 999 from rfl]
  exact decide_eq_false (by norm_num)

lemma c8_eval : processSymbol demoCfg c8World [0, 0, 0] "EURUSD" demoSim c8Rng =
    processSymbolCore demoCfg c8World "EURUSD"
      (bernoulli_draw (probOfLogit 0) c8Rng).1 (probOfLogit 0) (0 * 100) 0 [] demoSim
      (bernoulli_draw (probOfLogit 0) c8Rng).2 := rfl

/-- C8 witness: a concrete step in which the simulator rejects the
creation request for the only instrument; the message lands in the error
field, no order id is recorded, and the state keeps its next id with no
orders removed. -/
theorem claim8_witness :
    (processSymbol demoCfg c8World [0, 0, 0] "EURUSD" demoSim c8Rng).1.error =
      "margin error" ∧
    (processSymbol demoCfg c8World [0, 0, 0] "EURUSD" demoSim c8Rng).1.order_id = none ∧
    (processSymbol demoCfg c8World [0, 0, 0] "EURUSD" demoSim c8Rng).2.2.1.next_id =
      demoSim.next_id ∧
    (processSymbol demoCfg c8World [0, 0, 0] "EURUSD" demoSim c8Rng).2.2.1.orders.length =
      demoSim.orders.length -
        (processSymbol demoCfg c8World [0, 0, 0] "EURUSD" demoSim c8Rng).2.1.length :=
  claim8_theorem.1 demoCfg c8World [0, 0, 0] "EURUSD" demoSim c8Rng "margin error" rfl
    (by rw [c8_eval, c8_hold_draw]; rfl)
    (by rw [c8_eval, c8_hold_draw]; decide)

/-! ## Claim C9: seeded determinism and RNG persistence -/

/-- C9: (1) two runs that reset with the same explicit seed and then apply
the same action sequence produce identical trajectories (reset
observation/info, every step's observation, reward, premium, terminated,
truncated and info record), regardless of the RNG state each environment
carried before the reset — the RNG is replaced by `default_rng seed`; and
(2) when no seed is supplied (and no balance/time randomization consumes
draws), `reset` leaves the RNG exactly as it was: the generator persists
across episodes instead of being re-derived from any default seed. -/
theorem claim9_theorem :
    (∀ (cfg : EnvConfig) (world : World) (osim : Sim) (st0 et0 : ℕ)
        (r1 r2 : Rng) (s : ℕ) (actions : List (List ℚ)),
      runEpisode ⟨cfg, world, r1, osim, st0, et0⟩ (some s) actions =
        runEpisode ⟨cfg, world, r2, osim, st0, et0⟩ (some s) actions)
    ∧ (∀ (b : BaseEnv) (st : EnvState),
        b.cfg.randomize_initial_balance = false →
        b.cfg.time_split = false →
        resetEnv b none = some st →
        st.rng = b.rng) := by
  constructor
  · intro cfg world osim st0 et0 r1 r2 s actions
    rfl
  · intro b st hrand hts hreset
    simp [resetEnv, hrand, hts] at hreset
    rw [← hreset]

/-- C9 witness: without a seed, a reset of the demo environment keeps the
environment's RNG. -/
theorem claim9_witness : c1State.rng = c1Base.rng :=
  claim9_theorem.2 c1Base c1State rfl rfl rfl

/-! ## Claim C10: order direction from the signed volume -/

lemma processSymbolCore_create (cfg : EnvConfig) (world : World) (symbol : String)
    (hold : Bool) (hp volume : ℚ) (nOrders : ℕ) (toClose : List (Order × ℚ))
    (sim : Sim) (rng2 : Rng)
    (hid : (processSymbolCore cfg world symbol hold hp volume nOrders toClose
      sim rng2).1.order_id.isSome = true) :
    (processSymbolCore cfg world symbol hold hp volume nOrders toClose
        sim rng2).1.hold = false
    ∧ (processSymbolCore cfg world symbol hold hp volume nOrders toClose
        sim rng2).1.volume = volume
    ∧ (processSymbolCore cfg world symbol hold hp volume nOrders toClose
        sim rng2).1.order_type =
        some (if 0 < volume then OrderType.Buy else OrderType.Sell)
    ∧ (processSymbolCore cfg world symbol hold hp volume nOrders toClose
        sim rng2).1.modified_volume =
        get_modified_volume (sim.symbols_info symbol) volume := by
  simp only [processSymbolCore] at hid ⊢
  split_ifs at hid ⊢ with hcap hhold2 hvol
  · exact absurd hid (by simp)
  · rcases hc : create_order world OrderType.Buy symbol
        (get_modified_volume (sim.symbols_info symbol) volume)
        (resolveFee cfg.fee symbol) (closeOrdersList sim toClose).1 with e | res
    · rw [hc] at hid
      exact absurd hid (by simp)
    · simp only [hc]
      exact ⟨hhold2, trivial, trivial, trivial⟩
  · rcases hc : create_order world OrderType.Sell symbol
        (get_modified_volume (sim.symbols_info symbol) volume)
        (resolveFee cfg.fee symbol) (closeOrdersList sim toClose).1 with e | res
    · rw [hc] at hid
      exact absurd hid (by simp)
    · simp only [hc]
      exact ⟨hhold2, trivial, trivial, trivial⟩
  · exact absurd hid (by simp)

/-- C10 (amended): whenever an instrument's step actually records a created
order (the hold draw was false, no capacity error applied and the request
was accepted), the requested direction is Buy iff the scaled signed volume
is strictly positive — a signed volume of exactly zero is neither a hold
nor an error but yields a Sell request — and the request carries the
volume-adjusted quantity, which is at least `volume_min` provided
`volume_min` and `volume_max` are integer multiples of a positive
`volume_step` (for arbitrary metadata it can fall below `volume_min`). -/
theorem claim10_theorem (cfg : EnvConfig) (world : World) (symbolAction : List ℚ)
    (symbol : String) (sim : Sim) (rng : Rng)
    (hid : (processSymbol cfg world symbolAction symbol sim rng).1.order_id.isSome
      = true) :
    (processSymbol cfg world symbolAction symbol sim rng).1.hold = false
    ∧ (processSymbol cfg world symbolAction symbol sim rng).1.volume =
        symbolAction.getD (cfg.symbol_max_orders + 2 - 1) 0 * 100
    ∧ (processSymbol cfg world symbolAction symbol sim rng).1.order_type =
        some (if 0 < (processSymbol cfg world symbolAction symbol sim rng).1.volume
          then OrderType.Buy else OrderType.Sell)
    ∧ ((processSymbol cfg world symbolAction symbol sim rng).1.volume = 0 →
        (processSymbol cfg world symbolAction symbol sim rng).1.order_type =
          some OrderType.Sell)
    ∧ (processSymbol cfg world symbolAction symbol sim rng).1.modified_volume =
        get_modified_volume (sim.symbols_info symbol)
          ((processSymbol cfg world symbolAction symbol sim rng).1.volume)
    ∧ (0 < (sim.symbols_info symbol).volume_step →
        (sim.symbols_info symbol).volume_min ≤ (sim.symbols_info symbol).volume_max →
        (∃ a : ℤ, (sim.symbols_info symbol).volume_min =
          (a : ℚ) * (sim.symbols_info symbol).volume_step) →
        (∃ b : ℤ, (sim.symbols_info symbol).volume_max =
          (b : ℚ) * (sim.symbols_info symbol).volume_step) →
        (sim.symbols_info symbol).volume_min ≤
          (processSymbol cfg world symbolAction symbol sim rng).1.modified_volume) := by
  obtain ⟨hold, hp, vol, toClose, rng2, hsub, hvol2, heq⟩ :=
    processSymbol_spec cfg world symbolAction symbol sim rng
  rw [heq] at hid ⊢
  have hcore := processSymbolCore_create cfg world symbol hold hp vol
    (symbol_orders sim symbol).length toClose sim rng2 hid
  refine ⟨hcore.1, by rw [hcore.2.1, hvol2], ?_, ?_, ?_, ?_⟩
  · rw [hcore.2.1, hcore.2.2.1]
  · intro hz
    rw [hcore.2.2.1]
    rw [hcore.2.1] at hz
    rw [hz, if_neg (by norm_num)]
  · rw [hcore.2.1, hcore.2.2.2]
  · intro hstep hmm ⟨a, ha⟩ ⟨b, hb⟩
    rw [hcore.2.2.2]
    exact (get_modified_volume_bounds (sim.symbols_info symbol) vol hstep hmm a b ha hb).1

def c10Sim : Sim :=
  { demoSim with symbols_info := fun _ => cexSI }

lemma pythonRound_one_third : pythonRound ((1:ℚ)/3) = 0 := by
  have hf : ⌊(1:ℚ)/3⌋ = 0 := Int.floor_eq_iff.mpr (by norm_num)
  rw [pythonRound, hf]
  norm_num

/-- C10 counterexample to the claim as stated: at signed volume exactly `0`
and metadata `volume_min = 1/100`, `volume_max = 1`, `volume_step = 3/100`,
the step records a Sell order (direction rule holds) but the
volume-adjusted quantity is `0`, strictly below `volume_min` — the claimed
"at least volume_min" fails. -/
theorem claim10_counterexample :
    (processSymbol demoCfg demoWorld [0, 0, 0] "EURUSD" c10Sim c8Rng).1.order_type =
      some OrderType.Sell ∧
    (processSymbol demoCfg demoWorld [0, 0, 0] "EURUSD" c10Sim c8Rng).1.modified_volume
      < cexSI.volume_min := by
  have heval : processSymbol demoCfg demoWorld [0, 0, 0] "EURUSD" c10Sim c8Rng =
      processSymbolCore demoCfg demoWorld "EURUSD"
        (bernoulli_draw (probOfLogit 0) c8Rng).1 (probOfLogit 0) (0 * 100) 0 [] c10Sim
        (bernoulli_draw (probOfLogit 0) c8Rng).2 := rfl
  have hvol : (0 * 100 : ℚ) = 0 := by norm_num
  rw [heval, c8_hold_draw, hvol]
  constructor
  · rfl
  · have hmv : (processSymbolCore demoCfg demoWorld "EURUSD" false (probOfLogit 0) 0 0
        [] c10Sim (bernoulli_draw (probOfLogit 0) c8Rng).2).1.modified_volume =
        get_modified_volume cexSI 0 := rfl
    rw [hmv]
    have hclip : clipQ |(0:ℚ)| (1/100) 1 = 1/100 := by
      rw [clipQ, abs_zero, max_eq_left (by norm_num), min_eq_right (by norm_num)]
    have h0 : get_modified_volume cexSI 0 = 0 := by
      show (pythonRound (clipQ |(0:ℚ)| (1/100) 1 / (3/100)) : ℚ) * (3/100) = 0
      rw [hclip, show ((1:ℚ)/100) / (3/100) = 1/3 by norm_num, pythonRound_one_third]
      norm_num
    rw [h0]
    norm_num [cexSI]

/-- C10 witness: at signed volume `100` (action component `1`) with demo
metadata the recorded direction is Buy and the quantity respects the
bounds. -/
theorem claim10_witness :
    (processSymbol demoCfg demoWorld [0, 0, 1] "EURUSD" demoSim c8Rng).1.order_type =
      some (if 0 < (processSymbol demoCfg demoWorld [0, 0, 1] "EURUSD" demoSim
        c8Rng).1.volume then OrderType.Buy else OrderType.Sell) ∧
    demoSI.volume_min ≤
      (processSymbol demoCfg demoWorld [0, 0, 1] "EURUSD" demoSim c8Rng).1.modified_volume := by
  have hid : (processSymbol demoCfg demoWorld [0, 0, 1] "EURUSD" demoSim
      c8Rng).1.order_id.isSome = true := by
    have heval : processSymbol demoCfg demoWorld [0, 0, 1] "EURUSD" demoSim c8Rng =
        processSymbolCore demoCfg demoWorld "EURUSD"
          (bernoulli_draw (probOfLogit 0) c8Rng).1 (probOfLogit 0) (1 * 100) 0 [] demoSim
          (bernoulli_draw (probOfLogit 0) c8Rng).2 := rfl
    rw [heval, c8_hold_draw, show (1 * 100 : ℚ) = 100 by norm_num]
    rfl
  have h := claim10_theorem demoCfg demoWorld [0, 0, 1] "EURUSD" demoSim c8Rng hid
  refine ⟨h.2.2.1, ?_⟩
  exact h.2.2.2.2.2 (by norm_num [demoSim, demoSI]) (by norm_num [demoSim, demoSI])
    ⟨1, by norm_num [demoSim, demoSI]⟩ ⟨100, by norm_num [demoSim, demoSI]⟩
